import Mathlib

/-!
Shallow embedding of the lazy elementwise expression node of xtensor
(include/xtensor/xfunction.hpp) together with its flat iterator, its
dimensional stepper batch step, and the static batch-eligibility predicate.

The node logic (shape cache, broadcast fold, access forwarding, iterator
lockstep, reference-cursor comparison, simd type selection) is translated
from xfunction.hpp.  Operand behaviour (stored containers, rank-0 scalar
wrappers, their iterators) lives outside this repository slice and is
modelled from the specification where needed; every such definition is
marked in its doc comment.
-/

namespace xt

/-!
Broadcast and shape-cache model.  An operand is abstracted by the two
capabilities the node consults here: its rank (operand dimension) and its
own broadcast_shape, a state transformer on the output sequence returning
the triviality flag.
-/

abbrev Shape := List Nat

structure BOperand where
  bshape : Shape → Shape × Bool
  dim : Nat

structure Cache where
  shape : Shape
  is_trivial : Bool
  is_initialized : Bool

structure FNode where
  ops : List BOperand

/-- The accumulate fold of the else branch of xfunction::broadcast_shape
(lines 730-735), instrumented with a trace recording, in call order, each
invoked operand's position and the flag it returned.  The fold is the lambda
fun b e => e.broadcast_shape(shape) and b, left-folded over the operand tuple
from the initial value true; each operand call is evaluated unconditionally,
before the conjunction with the accumulator. -/
def broadcastRunFrom : List BOperand → Nat → Shape → Bool → Shape × Bool × List (Nat × Bool)
  | [], _, out, b => (out, b, [])
  | e :: rest, i, out, b =>
      let p := e.bshape out
      let r := broadcastRunFrom rest (i + 1) p.1 (p.2 && b)
      (r.1, r.2.1, (i, p.2) :: r.2.2)

def broadcastRun (ops : List BOperand) (out : Shape) : Shape × Bool × List (Nat × Bool) :=
  broadcastRunFrom ops 0 out true

/-- std::copy of the cached shape into the beginning of the output sequence
(line 727): the prefix of the destination is overwritten, the rest is kept. -/
def copyInto (src dst : List Nat) : List Nat :=
  src ++ dst.drop src.length

/-- xfunction::broadcast_shape(shape, reuse_cache), lines 721-736.  The cache
is not mutated (const method).  The result is the updated output sequence,
the returned triviality flag, and the operand invocation trace. -/
def broadcast_shape (n : FNode) (c : Cache) (out : Shape) (reuse_cache : Bool) :
    Shape × Bool × List (Nat × Bool) :=
  if c.is_initialized && reuse_cache then
    (copyInto c.shape out, c.is_trivial, [])
  else
    broadcastRun n.ops out

/-- xfunction::compute_dimension, lines 928-933: left max-fold of the operand
ranks from 0. -/
def compute_dimension (n : FNode) : Nat :=
  n.ops.foldl (fun d e => max d e.dim) 0

/-- xfunction::compute_cached_shape, lines 578-586: allocate a zero-filled
sequence of the computed rank, populate it through broadcast_shape with
reuse_cache false, record the triviality flag, mark initialized.  Every cache
field is overwritten, so the result does not depend on the previous cache. -/
def compute_cached_shape (n : FNode) : Cache × List (Nat × Bool) :=
  let s0 : Shape := List.replicate (compute_dimension n) 0
  let r := broadcastRun n.ops s0
  (⟨r.1, r.2.1, true⟩, r.2.2)

/-- xfunction::shape, lines 591-603, dynamic case: fill the cache when it is
not initialized, then return the cached sequence.  The trace component
records the operand broadcast_shape invocations this call performed. -/
def shape (n : FNode) (c : Cache) : Shape × Cache × List (Nat × Bool) :=
  if c.is_initialized then (c.shape, c, [])
  else
    let r := compute_cached_shape n
    (r.1.shape, r.1, r.2)

/-- xfunction::dimension, lines 571-576: the cached rank when the cache is
initialized, otherwise compute_dimension; the cache is left untouched. -/
def dimension (n : FNode) (c : Cache) : Nat × Cache :=
  (if c.is_initialized then c.shape.length else compute_dimension n, c)

/-- xfunction::size, lines 562-566: compute_size of shape(), the product of
the dimensions. -/
def size (n : FNode) (c : Cache) : Nat × Cache × List (Nat × Bool) :=
  let r := shape n c
  (r.1.foldl (fun a d => a * d) 1, r.2.1, r.2.2)

/-- Cache effect of one checked element access: access_impl (lines 852-859)
touches the cache only through its two shape() calls. -/
def accessTouch (n : FNode) (c : Cache) : Cache :=
  (shape n ((shape n c).2.1)).2.1

/-- Repeated shape() calls: final cache, concatenated operand invocation
trace, and the sequence returned by each call. -/
def shapeCalls (n : FNode) : Cache → Nat → Cache × List (Nat × Bool) × List Shape
  | c, 0 => (c, [], [])
  | c, Nat.succ k =>
      let r := shape n c
      let rest := shapeCalls n r.2.1 k
      (rest.1, r.2.2 ++ rest.2.1, r.1 :: rest.2.2)

/-!
Element access model.  Here operands are concrete: a rank-0 scalar wrapper
or a stored row-major container; their element access and broadcast merge
are modelled from the specification (operand interface and glossary).
-/

inductive SOperand where
  | scalar (v : Int)
  | stored (sh : List Nat) (data : List Int)

structure ANode where
  f : List Int → Int
  ops : List SOperand

/-- Modelled from the spec: an operand's shape; a rank-0 scalar wrapper has
the empty shape. -/
def opShape : SOperand → List Nat
  | .scalar _ => []
  | .stored sh _ => sh

/-- Modelled from the spec (glossary, Broadcasting): align a node-rank index
to the operand shape from the trailing dimension and send every size-1 axis
to 0. -/
def broadcastAdjust (sh idx : List Nat) : List Nat :=
  List.zipWith (fun d i => if d = 1 then 0 else i) sh (idx.drop (idx.length - sh.length))

/-- Row-major flattening of an operand-rank index. -/
def flatIndex (sh idx : List Nat) : Nat :=
  (List.zip sh idx).foldl (fun a p => a * p.1 + p.2) 0

/-- Modelled from the spec: direct (non-broadcast) element read of an operand
at an operand-rank index; a scalar ignores the index, a stored container
reads its row-major storage. -/
def elementAt (op : SOperand) (opIdx : List Nat) : Int :=
  match op with
  | .scalar v => v
  | .stored sh data => data.getD (flatIndex sh opIdx) 0

/-- Modelled from the spec (operand interface): broadcast-aware element
access of an operand at a node-rank index. -/
def opAccess (op : SOperand) (idx : List Nat) : Int :=
  match op with
  | .scalar v => v
  | .stored sh data =>
      data.getD
        (flatIndex sh
          (List.zipWith (fun d i => if d = 1 then 0 else i) sh (idx.drop (idx.length - sh.length)))) 0

/-- Modelled from the spec (operand interface): an operand's broadcast_shape
merges its extents into the output sequence aligned at the trailing
dimension, and reports triviality, namely whether its native shape already
equals the merged output. -/
def opBroadcastShape (op : SOperand) (out : List Nat) : List Nat × Bool :=
  match op with
  | .scalar _ => (out, true)
  | .stored sh _ =>
      let merged := out.take (out.length - sh.length)
        ++ List.zipWith (fun a b => max a b) (out.drop (out.length - sh.length)) sh
      (merged, sh == merged)

/-- Modelled from the spec: an operand's flat linear read; a scalar ignores
the index. -/
def opDataElement (op : SOperand) (i : Nat) : Int :=
  match op with
  | .scalar v => v
  | .stored _ data => data.getD i 0

def isScalarOp : SOperand → Bool
  | .scalar _ => true
  | .stored _ _ => false

/-- Node rank, the max-fold of operand ranks (compute_dimension). -/
def nodeRank (n : ANode) : Nat :=
  n.ops.foldl (fun d op => max d (opShape op).length) 0

/-- The node's resolved shape: the cache-fill computation of
compute_cached_shape, folding every operand's broadcast merge over a
zero-filled sequence of the node rank. -/
def nodeShape (n : ANode) : List Nat :=
  n.ops.foldl (fun s op => (opBroadcastShape op s).1) (List.replicate (nodeRank n) 0)

/-- Modelled from the spec: the validation of the checked access path
(check_index and the dimension check): the index count must equal the rank
and every index must be below its dimension. -/
def validIndex (sh idx : List Nat) : Bool :=
  (idx.length == sh.length) && (List.zip idx sh).all fun p => decide (p.1 < p.2)

/-- xfunction::operator() / access_impl, lines 638-645 and 852-859, with the
validation macros enabled: failed validation signals the assertion-category
condition, modelled as none. -/
def accessChecked (n : ANode) (idx : List Nat) : Option Int :=
  if validIndex (nodeShape n) idx then
    some (n.f (n.ops.map fun op => opAccess op idx))
  else none

/-- The same access path in a production build: the validation macros expand
to nothing and the functor is applied unconditionally. -/
def accessProd (n : ANode) (idx : List Nat) : Int :=
  n.f (n.ops.map fun op => opAccess op idx)

/-- xfunction::data_element / data_element_impl, lines 818-822 and 876-881:
the flat index is forwarded unchanged to every operand. -/
def data_element (n : ANode) (i : Nat) : Int :=
  n.f (n.ops.map fun op => opDataElement op i)

/-- xfunction::operator[](size_type), lines 690-694: forwards the single
index to operator()(i), the checked access path. -/
def subscript (n : ANode) (i : Nat) : Option Int :=
  accessChecked n [i]

/-- all_xscalar (line 205): every operand is a rank-0 scalar wrapper. -/
def only_scalar (n : ANode) : Bool :=
  n.ops.all isScalarOp

/-- xfunction::operator value_type, lines 824-829, with the enable_if gate of
lines 334-335: available only when every operand is a scalar; forwards to the
zero-argument checked access operator()(). -/
def value_conversion (n : ANode) : Option Int :=
  if only_scalar n then accessChecked n [] else none

/-- size() on the access model: product of the resolved shape. -/
def nodeSize (n : ANode) : Nat :=
  (nodeShape n).foldl (fun a d => a * d) 1

/-!
Flat iterator model.  A per-operand cursor is either a genuine storage-order
iterator (a position in a flat value sequence) or the placeholder cursor of
a rank-0 scalar operand; the placeholder behaviour is modelled from the
specification, the lockstep logic is translated from xfunction_iterator.
-/

inductive Cursor where
  | dummy (v : Int)
  | genuine (data : List Int) (pos : Int)

def cdef : Cursor := .dummy 0

/-- Modelled from the spec: a placeholder cursor ignores any advance request;
a genuine cursor moves its position by the requested delta. -/
def Cursor.advance : Cursor → Int → Cursor
  | .dummy v, _ => .dummy v
  | .genuine d p, m => .genuine d (p + m)

/-- Modelled from the spec: the current value under a cursor. -/
def Cursor.deref : Cursor → Int
  | .dummy v => v
  | .genuine d p => d.getD p.toNat 0

/-- Modelled from the spec: pairwise cursor distance; placeholder cursors are
at distance zero. -/
def Cursor.sub : Cursor → Cursor → Int
  | .genuine _ p, .genuine _ q => p - q
  | _, _ => 0

def Cursor.isDummy : Cursor → Bool
  | .dummy _ => true
  | .genuine _ _ => false

/-- Modelled from the spec: placeholder cursors compare trivially equal;
genuine cursors compare by position. -/
def Cursor.ceq : Cursor → Cursor → Bool
  | .dummy _, .dummy _ => true
  | .genuine _ p, .genuine _ q => p == q
  | _, _ => false

/-- Modelled from the spec: ordering of cursors; genuine cursors compare by
position, placeholders are never strictly less. -/
def Cursor.clt : Cursor → Cursor → Bool
  | .genuine _ p, .genuine _ q => decide (p < q)
  | _, _ => false

structure FIter where
  f : List Int → Int
  cursors : List Cursor

/-- xfunction_iterator::operator++, lines 946-952: increment every cursor. -/
def itInc (it : FIter) : FIter :=
  ⟨it.f, it.cursors.map (Cursor.advance · 1)⟩

/-- xfunction_iterator::operator--, lines 954-960: decrement every cursor. -/
def itDec (it : FIter) : FIter :=
  ⟨it.f, it.cursors.map (Cursor.advance · (-1))⟩

/-- xfunction_iterator::operator+=, lines 962-968: advance every cursor by
the same n. -/
def itAdd (it : FIter) (m : Int) : FIter :=
  ⟨it.f, it.cursors.map (Cursor.advance · m)⟩

/-- xfunction_iterator::operator- via tuple_max_diff, lines 978-982 and
1017-1026: the left max-fold, seeded with difference_type(0), of the
pairwise cursor differences. -/
def itSub (it1 it2 : FIter) : Int :=
  (List.zipWith Cursor.sub it1.cursors it2.cursors).foldl (fun a d => max a d) 0

/-- xfunction_iterator::operator* / deref_impl, lines 984-988 and 1010-1015:
the functor applied to every cursor's current value. -/
def itDeref (it : FIter) : Int :=
  it.f (it.cursors.map Cursor.deref)

/-- The reference cursor position used by equal and less_than, lines 990-1008:
the first non-placeholder position via find_if, or 0 when the search reaches
the tuple size because every cursor is a placeholder. -/
def refIndex (cs : List Cursor) : Nat :=
  let t := cs.findIdx fun c => !c.isDummy
  if t = cs.length then 0 else t

/-- xfunction_iterator::equal, lines 990-998: compare the two iterators at
the reference cursor position only. -/
def itEqual (it1 it2 : FIter) : Bool :=
  Cursor.ceq (it1.cursors.getD (refIndex it1.cursors) cdef)
    (it2.cursors.getD (refIndex it1.cursors) cdef)

/-- xfunction_iterator::less_than, lines 1000-1008: order the two iterators
at the reference cursor position only. -/
def itLess (it1 it2 : FIter) : Bool :=
  Cursor.clt (it1.cursors.getD (refIndex it1.cursors) cdef)
    (it2.cursors.getD (refIndex it1.cursors) cdef)

/-!
Batch-eligibility model.  The capability flags of leaf operands and of
functors abstract the xsimd traits; the combination logic is translated from
the metafunctions of xfunction.hpp.
-/

inductive SimdExpr where
  | leaf (value_simd : Bool) (simd_iface : Bool)
  | node (result_simd : Bool) (functor_simd_apply : Bool) (args : List SimdExpr)

/-- has_simd_type of an expression's value type: a leaf carries its own flag,
a function node carries the flag of its derived result type. -/
def value_has_simd_type : SimdExpr → Bool
  | .leaf h _ => h
  | .node r _ _ => r

mutual

/-- has_simd_interface of an expression: for a leaf its declared capability;
for a function node use_xsimd (lines 35-39 and 102-119), the conjunction of
simd_arguments_exist (the result type and every operand value type have a
simd type), the functor's simd_apply for the result type, and recursively
every operand's own simd interface. -/
def has_simd_interface : SimdExpr → Bool
  | .leaf _ h => h
  | .node r fa args =>
      ((r && args.all value_has_simd_type) && fa) && hsi_all args

/-- Conjunction of has_simd_interface over an operand list. -/
def hsi_all : List SimdExpr → Bool
  | [] => true
  | e :: es => has_simd_interface e && hsi_all es

end

/-- A batch (simd) type, abstracted by the two classification predicates the
selection logic consults: is_batch_bool and is_batch_complex. -/
structure BatchTy where
  isBool : Bool
  isCplx : Bool

/-- detail::get_simd_type, lines 888-904: a bool result batch forces the
common batch type; otherwise a bool or complex argument batch keeps its own
simd_value_type; otherwise the requested batch type is used. -/
def get_simd_type (arg res common : BatchTy) : BatchTy :=
  if res.isBool then common
  else if arg.isBool || arg.isCplx then arg
  else res

structure SimdOperand where
  simd_value_type : BatchTy
  stepSimd : BatchTy → Int

structure SimdNode where
  simd_apply : List Int → Int
  common : BatchTy
  ops : List SimdOperand

/-- xfunction_stepper::step_simd_impl, lines 1122-1138: the functor's
simd_apply applied to every operand's step_simd at that operand's selected
batch type. -/
def step_simd_impl (n : SimdNode) (ST : BatchTy) : Int :=
  n.simd_apply (n.ops.map fun op => op.stepSimd (get_simd_type op.simd_value_type ST n.common))

/-!
Concrete instances used by witnesses and counterexamples.
-/

def nodeB : FNode :=
  ⟨[⟨fun _ => ([2, 3], false), 2⟩, ⟨fun out => (out, true), 1⟩]⟩

def nodeD : FNode :=
  ⟨[⟨fun out => (out, true), 2⟩]⟩

def cacheU : Cache := ⟨[], false, false⟩

def cacheI : Cache := ⟨[2, 3], true, true⟩

def opA : SOperand := .stored [2, 3] [0, 1, 2, 3, 4, 5]

def opB : SOperand := .stored [3] [10, 20, 30]

def nodeAB : ANode := ⟨fun l => l.foldl (fun a x => a + x) 0, [opA, opB]⟩

def nodeSS : ANode := ⟨fun l => l.foldl (fun a x => a + x) 0, [.scalar 4, .scalar 5]⟩

def nodeCX : ANode :=
  ⟨fun l => l.foldl (fun a x => a + x) 0, [.stored [2, 3] [0, 1, 2, 3, 4, 5], .scalar 10]⟩

def itP : FIter := ⟨fun l => l.foldl (fun a x => a + x) 0, [.genuine [10, 20] 0]⟩

def itQ : FIter := ⟨fun l => l.foldl (fun a x => a + x) 0, [.genuine [10, 20] 1]⟩

def itR : FIter := ⟨fun l => l.foldl (fun a x => a + x) 0, [.dummy 7]⟩

def nodeS : SimdNode :=
  ⟨fun l => l.foldl (fun a x => a + x) 0, ⟨false, false⟩, [⟨⟨true, false⟩, fun _ => 1⟩]⟩

/-!
Helper lemmas about the broadcast fold and the cache operations.
-/

theorem broadcastRunFrom_indices (ops : List BOperand) (i : Nat) (out : Shape) (b : Bool) :
    (broadcastRunFrom ops i out b).2.2.map Prod.fst = List.range' i ops.length := by
  induction ops generalizing i out b with
  | nil => simp [broadcastRunFrom]
  | cons e rest ih =>
      simp [broadcastRunFrom, ih, List.range'_succ]

theorem bool_and_shuffle (x y z : Bool) : (x && (y && z)) = ((y && x) && z) := by
  cases x <;> cases y <;> cases z <;> rfl

theorem broadcastRunFrom_flag (ops : List BOperand) (i : Nat) (out : Shape) (b : Bool) :
    (broadcastRunFrom ops i out b).2.1 =
      ((((broadcastRunFrom ops i out b).2.2.map Prod.snd).foldr (fun x y => x && y) true) && b) := by
  induction ops generalizing i out b with
  | nil => simp [broadcastRunFrom]
  | cons e rest ih =>
      simp only [broadcastRunFrom, List.map_cons, List.foldr_cons]
      rw [ih]
      exact bool_and_shuffle _ _ _

theorem shape_of_initialized (n : FNode) (c : Cache) (h : c.is_initialized = true) :
    shape n c = (c.shape, c, []) := by
  simp [shape, h]

theorem shape_of_uninitialized (n : FNode) (c : Cache) (h : c.is_initialized = false) :
    shape n c =
      ((compute_cached_shape n).1.shape, (compute_cached_shape n).1,
        (compute_cached_shape n).2) := by
  simp [shape, h]

theorem compute_cached_shape_initialized (n : FNode) :
    (compute_cached_shape n).1.is_initialized = true := rfl

theorem shapeCalls_of_initialized (n : FNode) (c : Cache) (h : c.is_initialized = true)
    (k : Nat) : shapeCalls n c k = (c, [], List.replicate k c.shape) := by
  induction k with
  | zero => rfl
  | succ k ih =>
      show shapeCalls n c (Nat.succ k) = _
      rw [shapeCalls, shape_of_initialized n c h]
      simp [ih, List.replicate_succ]

/-!
Claim theorems, C1 to C3.
-/

/-- C1: broadcast_shape with reuse_cache true on an initialized cache copies
the cached shape onto the front of out, keeps the rest of out, and returns
the cached triviality flag with an empty operand-invocation trace; in every
other case it invokes every operand exactly once, in operand order (the trace
positions are exactly 0, 1, ..., N-1, so no call is skipped after a
non-trivial result), and the returned flag is the conjunction of all N
operand results. -/
theorem broadcast_shape_spec (n : FNode) (c : Cache) (out : Shape) (reuse : Bool) :
    (c.is_initialized = true → reuse = true →
        (broadcast_shape n c out reuse).1.take c.shape.length = c.shape
      ∧ (broadcast_shape n c out reuse).1.drop c.shape.length = out.drop c.shape.length
      ∧ (broadcast_shape n c out reuse).2.1 = c.is_trivial
      ∧ (broadcast_shape n c out reuse).2.2 = [])
    ∧ ((c.is_initialized && reuse) = false →
        ((broadcast_shape n c out reuse).2.2.map Prod.fst = List.range n.ops.length)
      ∧ (broadcast_shape n c out reuse).2.1 =
          ((broadcast_shape n c out reuse).2.2.map Prod.snd).foldr (fun x y => x && y) true) := by
  constructor
  · intro h1 h2
    have hcond : (c.is_initialized && reuse) = true := by rw [h1, h2]; rfl
    have hb : broadcast_shape n c out reuse = (copyInto c.shape out, c.is_trivial, []) := by
      simp [broadcast_shape, hcond]
    rw [hb]
    exact ⟨List.take_left c.shape (out.drop c.shape.length),
      List.drop_left c.shape (out.drop c.shape.length), rfl, rfl⟩
  · intro h
    simp only [broadcast_shape, h, Bool.false_eq_true, if_false, broadcastRun]
    refine ⟨?_, ?_⟩
    · rw [broadcastRunFrom_indices, List.range_eq_range']
    · rw [broadcastRunFrom_flag]
      simp

/-- Witness for C1: the recomputation branch on a concrete two-operand node
with an uninitialized cache. -/
theorem broadcast_shape_spec_witness :
    (cacheU.is_initialized && false) = false
    ∧ (((broadcast_shape nodeB cacheU [0, 0] false).2.2.map Prod.fst
          = List.range nodeB.ops.length)
      ∧ (broadcast_shape nodeB cacheU [0, 0] false).2.1 =
          ((broadcast_shape nodeB cacheU [0, 0] false).2.2.map Prod.snd).foldr
            (fun x y => x && y) true) :=
  ⟨rfl, (broadcast_shape_spec nodeB cacheU [0, 0] false).2 rfl⟩

/-- C2 counterexample: on a dynamically shaped node with an uninitialized
shape cache, the first dimension() call does not fill the cache: the cache is
still uninitialized afterwards, although the correct rank is returned. -/
theorem dimension_no_fill_cex :
    cacheU.is_initialized = false
    ∧ ((dimension nodeD cacheU).2).is_initialized = false
    ∧ (dimension nodeD cacheU).1 = 2 :=
  ⟨rfl, rfl, rfl⟩

/-- C2 amended: dimension() never mutates the cache; when the cache is
initialized (the static case has an always-initialized cache) it returns the
cached rank, and otherwise it computes the rank as the max-fold of the
operand ranks, leaving the cache uninitialized. -/
theorem dimension_spec (n : FNode) (c : Cache) :
    (dimension n c).2 = c
    ∧ (c.is_initialized = true → (dimension n c).1 = c.shape.length)
    ∧ (c.is_initialized = false →
        (dimension n c).1 = (n.ops.map BOperand.dim).foldl (fun d a => max d a) 0
        ∧ ((dimension n c).2).is_initialized = false) := by
  refine ⟨rfl, fun h => ?_, fun h => ⟨?_, ?_⟩⟩ <;>
    simp [dimension, compute_dimension, h, List.foldl_map]

/-- Witness for C2 at a concrete dynamic node and uninitialized cache. -/
theorem dimension_spec_witness :
    cacheU.is_initialized = false
    ∧ ((dimension nodeD cacheU).1 = (nodeD.ops.map BOperand.dim).foldl (fun d a => max d a) 0
        ∧ ((dimension nodeD cacheU).2).is_initialized = false) :=
  ⟨rfl, (dimension_spec nodeD cacheU).2.2 rfl⟩

/-- C3: starting from an uninitialized cache, any positive number of repeated
shape() calls invokes each operand's broadcast_shape exactly once in total
(the concatenated trace positions are exactly 0, ..., N-1, all from the
single cache fill); the final cache is initialized, and every call returned
the same cached sequence; moreover once a cache is initialized, shape(),
dimension(), size() and the cache effect of a checked element access all
leave it unchanged. -/
theorem shape_memoization_spec (n : FNode) (c : Cache) (k : Nat)
    (hc : c.is_initialized = false) (hk : 1 ≤ k) :
    ((shapeCalls n c k).2.1.map Prod.fst = List.range n.ops.length)
    ∧ ((shapeCalls n c k).1).is_initialized = true
    ∧ (shapeCalls n c k).2.2 = List.replicate k ((shapeCalls n c k).1).shape
    ∧ (∀ c2 : Cache, c2.is_initialized = true →
        (shape n c2).2.1 = c2 ∧ (dimension n c2).2 = c2
          ∧ (size n c2).2.1 = c2 ∧ accessTouch n c2 = c2) := by
  obtain ⟨k', rfl⟩ : ∃ k', k = Nat.succ k' := by
    cases k with
    | zero => exact absurd hk (by simp)
    | succ k' => exact ⟨k', rfl⟩
  have hfill :
      shapeCalls n c (Nat.succ k')
        = ((compute_cached_shape n).1, (compute_cached_shape n).2,
            List.replicate (Nat.succ k') (compute_cached_shape n).1.shape) := by
    rw [shapeCalls, shape_of_uninitialized n c hc,
      shapeCalls_of_initialized n (compute_cached_shape n).1
        (compute_cached_shape_initialized n) k']
    simp [List.replicate_succ]
  refine ⟨?_, ?_, ?_, ?_⟩
  · rw [hfill]
    show (broadcastRun n.ops _).2.2.map Prod.fst = _
    rw [broadcastRun, broadcastRunFrom_indices, List.range_eq_range']
  · rw [hfill]; rfl
  · rw [hfill]
  · intro c2 h2
    refine ⟨?_, rfl, ?_, ?_⟩
    · rw [shape_of_initialized n c2 h2]
    · show (shape n c2).2.1 = c2
      rw [shape_of_initialized n c2 h2]
    · show (shape n ((shape n c2).2.1)).2.1 = c2
      rw [shape_of_initialized n c2 h2, shape_of_initialized n c2 h2]

/-- Witness for C3: two shape() calls on a concrete node starting from an
uninitialized cache. -/
theorem shape_memoization_spec_witness :
    (cacheU.is_initialized = false ∧ 1 ≤ 2)
    ∧ ((shapeCalls nodeB cacheU 2).2.1.map Prod.fst = List.range nodeB.ops.length)
    ∧ ((shapeCalls nodeB cacheU 2).1).is_initialized = true :=
  ⟨⟨rfl, by decide⟩,
    (shape_memoization_spec nodeB cacheU 2 rfl (by decide)).1,
    (shape_memoization_spec nodeB cacheU 2 rfl (by decide)).2.1⟩

/-!
Helper lemmas about the access model.
-/

theorem foldl_rank_scalar (ops : List SOperand) (a : Nat)
    (h : ∀ op ∈ ops, isScalarOp op = true) :
    ops.foldl (fun d op => max d (opShape op).length) a = a := by
  induction ops generalizing a with
  | nil => rfl
  | cons x xs ih =>
      have hx := h x (List.mem_cons_self x xs)
      cases x with
      | scalar v =>
          show xs.foldl _ (max a (opShape (SOperand.scalar v)).length) = a
          simp only [opShape, List.length_nil, Nat.max_zero]
          exact ih a fun op hop => h op (List.mem_cons_of_mem _ hop)
      | stored sh d => simp [isScalarOp] at hx

theorem foldl_shape_scalar (ops : List SOperand) (s : List Nat)
    (h : ∀ op ∈ ops, isScalarOp op = true) :
    ops.foldl (fun t op => (opBroadcastShape op t).1) s = s := by
  induction ops generalizing s with
  | nil => rfl
  | cons x xs ih =>
      have hx := h x (List.mem_cons_self x xs)
      cases x with
      | scalar v =>
          show xs.foldl _ (opBroadcastShape (SOperand.scalar v) s).1 = s
          exact ih s fun op hop => h op (List.mem_cons_of_mem _ hop)
      | stored sh d => simp [isScalarOp] at hx

/-!
Claim theorems, C4, C9 and C10.
-/

/-- C4: with validation enabled, checked access at an index valid for the
node's resolved shape equals the functor applied to every operand's element
at the broadcast-adjusted index; an invalid index (count mismatch with the
rank or an out-of-range entry) signals the assertion-category condition; and
in a production build the validation is a no-op, the functor being applied
unconditionally. -/
theorem access_spec (n : ANode) (idx : List Nat) :
    (validIndex (nodeShape n) idx = true →
       accessChecked n idx
         = some (n.f (n.ops.map fun op => elementAt op (broadcastAdjust (opShape op) idx))))
    ∧ (validIndex (nodeShape n) idx = false → accessChecked n idx = none)
    ∧ accessProd n idx
        = n.f (n.ops.map fun op => elementAt op (broadcastAdjust (opShape op) idx)) := by
  have hop : (fun op => opAccess op idx)
      = (fun op => elementAt op (broadcastAdjust (opShape op) idx)) := by
    funext op; cases op <;> rfl
  refine ⟨fun h => ?_, fun h => ?_, ?_⟩
  · simp only [accessChecked, h, if_true, hop]
  · simp only [accessChecked, h, Bool.false_eq_true, if_false]
  · simp only [accessProd, hop]

/-- Witness for C4: the concrete scenario of the specification, operand A of
shape [2, 3] with row-major values 0..5, operand B of shape [3] with values
[10, 20, 30], functor addition; the node value at index (0, 1) is 21. -/
theorem access_spec_witness :
    validIndex (nodeShape nodeAB) [0, 1] = true
    ∧ accessChecked nodeAB [0, 1]
        = some (nodeAB.f (nodeAB.ops.map fun op => elementAt op (broadcastAdjust (opShape op) [0, 1])))
    ∧ accessChecked nodeAB [0, 1] = some 21
    ∧ nodeShape nodeAB = [2, 3] :=
  ⟨by decide, (access_spec nodeAB [0, 1]).1 (by decide), by decide, by decide⟩

/-- C9: the implicit conversion to the value type is available exactly for
nodes whose operands are all rank-0 scalars, and on such a node it equals the
zero-argument checked access path, the functor applied to every operand's
sole value; such a node has the empty shape and size one. -/
theorem scalar_conversion_spec (n : ANode) :
    ((value_conversion n).isSome = true ↔ only_scalar n = true)
    ∧ (only_scalar n = true →
        nodeShape n = []
        ∧ nodeSize n = 1
        ∧ value_conversion n = some (n.f (n.ops.map fun op => opAccess op []))) := by
  have hmain : only_scalar n = true →
      nodeShape n = [] ∧ nodeSize n = 1
        ∧ value_conversion n = some (n.f (n.ops.map fun op => opAccess op [])) := by
    intro h
    have hall : ∀ op ∈ n.ops, isScalarOp op = true := by
      simpa [only_scalar, List.all_eq_true] using h
    have hrank : nodeRank n = 0 := foldl_rank_scalar n.ops 0 hall
    have hshape : nodeShape n = [] := by
      have := foldl_shape_scalar n.ops (List.replicate (nodeRank n) 0) hall
      rw [nodeShape, this, hrank]
      rfl
    have hv : validIndex (nodeShape n) [] = true := by rw [hshape]; rfl
    refine ⟨hshape, ?_, ?_⟩
    · rw [nodeSize, hshape]; rfl
    · simp only [value_conversion, h, if_true, accessChecked, hv]
  refine ⟨⟨?_, ?_⟩, hmain⟩
  · intro hs
    cases honly : only_scalar n with
    | true => rfl
    | false =>
        rw [value_conversion, honly] at hs
        simp at hs
  · intro h
    rcases hmain h with ⟨_, _, hvc⟩
    rw [hvc]
    rfl

/-- Witness for C9 at a concrete node over two scalar operands. -/
theorem scalar_conversion_spec_witness :
    only_scalar nodeSS = true
    ∧ (nodeShape nodeSS = [] ∧ nodeSize nodeSS = 1
        ∧ value_conversion nodeSS = some (nodeSS.f (nodeSS.ops.map fun op => opAccess op []))) :=
  ⟨rfl, (scalar_conversion_spec nodeSS).2 rfl⟩

/-- C10: the single-index subscript operator is exactly the checked one-index
access path, validating the single index against the node shape and signaling
on an invalid one; it is not the flat linear data_element access, from which
it differs on a concrete node. -/
theorem subscript_spec (n : ANode) (i : Nat) :
    subscript n i = accessChecked n [i]
    ∧ (validIndex (nodeShape n) [i] = false → subscript n i = none)
    ∧ (validIndex (nodeShape n) [i] = true →
        subscript n i = some (n.f (n.ops.map fun op => opAccess op [i])))
    ∧ (∃ m : ANode, ∃ j : Nat, subscript m j ≠ some (data_element m j)) := by
  refine ⟨rfl, fun h => ?_, fun h => ?_, ⟨nodeCX, 1, by decide⟩⟩ <;>
    simp only [subscript, accessChecked, h, Bool.false_eq_true, if_false, if_true]

/-- Witness for C10: on a rank-2 concrete node a single index fails
validation, so the subscript signals while data_element does not. -/
theorem subscript_spec_witness :
    validIndex (nodeShape nodeCX) [1] = false ∧ subscript nodeCX 1 = none :=
  ⟨by decide, (subscript_spec nodeCX 1).2.1 (by decide)⟩

/-!
Helper lemmas about the flat iterator model.
-/

theorem getD_map_advance (cs : List Cursor) (m : Int) (i : Nat) :
    (cs.map (Cursor.advance · m)).getD i cdef = (cs.getD i cdef).advance m := by
  induction cs generalizing i with
  | nil => cases i <;> rfl
  | cons x xs ih =>
      cases i with
      | zero => rfl
      | succ j =>
          simp only [List.map_cons, List.getD_cons_succ]
          exact ih j

theorem foldl_max_ge_init (l : List Int) (a : Int) : a ≤ l.foldl (fun x d => max x d) a := by
  induction l generalizing a with
  | nil => simp
  | cons x xs ih => exact le_trans (le_max_left a x) (ih (max a x))

theorem foldl_max_ge_mem (l : List Int) (a : Int) :
    ∀ d ∈ l, d ≤ l.foldl (fun x e => max x e) a := by
  induction l generalizing a with
  | nil => intro d hd; exact absurd hd (List.not_mem_nil d)
  | cons x xs ih =>
      intro d hd
      rcases List.mem_cons.mp hd with h | h
      · subst h
        exact le_trans (le_max_right a d) (foldl_max_ge_init xs (max a d))
      · exact ih (max a x) d h

theorem foldl_max_cases (l : List Int) (a : Int) :
    l.foldl (fun x e => max x e) a = a ∨ l.foldl (fun x e => max x e) a ∈ l := by
  induction l generalizing a with
  | nil => exact Or.inl rfl
  | cons x xs ih =>
      rcases ih (max a x) with h | h
      · rcases le_total x a with hxa | hax
        · exact Or.inl (by show xs.foldl _ (max a x) = a; rw [h, max_eq_left hxa])
        · refine Or.inr ?_
          show xs.foldl _ (max a x) ∈ x :: xs
          rw [h, max_eq_right hax]
          exact List.mem_cons_self x xs
      · exact Or.inr (List.mem_cons_of_mem x h)

theorem findIdx_all_dummy (cs : List Cursor) (h : ∀ c ∈ cs, c.isDummy = true) :
    (cs.findIdx fun c => !c.isDummy) = cs.length := by
  induction cs with
  | nil => rfl
  | cons x xs ih =>
      have hx := h x (List.mem_cons_self x xs)
      have hxs := ih fun c hc => h c (List.mem_cons_of_mem _ hc)
      simp [List.findIdx_cons, hx, hxs]

theorem findIdx_prefix_dummy (cs : List Cursor) (j : Nat)
    (h : j < cs.findIdx fun c => !c.isDummy) :
    (cs.getD j cdef).isDummy = true := by
  induction cs generalizing j with
  | nil => simp [List.findIdx_nil] at h
  | cons x xs ih =>
      rw [List.findIdx_cons] at h
      cases hx : x.isDummy with
      | false => rw [hx] at h; simp at h
      | true =>
          rw [hx] at h
          simp only [Bool.not_true, cond_false] at h
          cases j with
          | zero => simpa using hx
          | succ j =>
              simp only [List.getD_cons_succ]
              exact ih j (Nat.lt_of_succ_lt_succ h)

theorem findIdx_lt_of_found (cs : List Cursor) (h : ∃ c ∈ cs, c.isDummy = false) :
    (cs.findIdx fun c => !c.isDummy) < cs.length := by
  induction cs with
  | nil => rcases h with ⟨c, hc, _⟩; exact absurd hc (List.not_mem_nil c)
  | cons x xs ih =>
      rw [List.findIdx_cons]
      cases hx : x.isDummy with
      | false => simp [hx]
      | true =>
          simp only [hx, Bool.not_true, cond_false, List.length_cons]
          have hxs : ∃ c ∈ xs, c.isDummy = false := by
            rcases h with ⟨c, hc, hcd⟩
            rcases List.mem_cons.mp hc with rfl | hcs
            · rw [hx] at hcd; cases hcd
            · exact ⟨c, hcs, hcd⟩
          exact Nat.succ_lt_succ (ih hxs)

theorem findIdx_found_dummy (cs : List Cursor) (h : ∃ c ∈ cs, c.isDummy = false) :
    (cs.getD (cs.findIdx fun c => !c.isDummy) cdef).isDummy = false := by
  induction cs with
  | nil => rcases h with ⟨c, hc, _⟩; exact absurd hc (List.not_mem_nil c)
  | cons x xs ih =>
      rw [List.findIdx_cons]
      cases hx : x.isDummy with
      | false => simp [hx]
      | true =>
          simp only [hx, Bool.not_true, cond_false, List.getD_cons_succ]
          apply ih
          rcases h with ⟨c, hc, hcd⟩
          rcases List.mem_cons.mp hc with rfl | hcs
          · rw [hx] at hcd; cases hcd
          · exact ⟨c, hcs, hcd⟩

theorem getD_dummy (cs : List Cursor) (j : Nat) (h : ∀ c ∈ cs, c.isDummy = true) :
    (cs.getD j cdef).isDummy = true := by
  induction cs generalizing j with
  | nil => cases j <;> rfl
  | cons x xs ih =>
      cases j with
      | zero => exact h x (List.mem_cons_self x xs)
      | succ j =>
          simp only [List.getD_cons_succ]
          exact ih j fun c hc => h c (List.mem_cons_of_mem _ hc)

theorem ceq_of_dummy (c1 c2 : Cursor) (h1 : c1.isDummy = true) (h2 : c2.isDummy = true) :
    Cursor.ceq c1 c2 = true := by
  cases c1 with
  | genuine d p => simp [Cursor.isDummy] at h1
  | dummy v =>
      cases c2 with
      | genuine d p => simp [Cursor.isDummy] at h2
      | dummy w => rfl

/-!
Claim theorems, C5 and C8.
-/

/-- C5 counterexample: for these two flat iterators of the same one-operand
node, the list of per-operand pairwise cursor distances is [-1], so its
maximum over the operands is -1, yet the implemented distance is 0: the
max-fold is seeded with zero, so negative distances are clamped and the
distance is not the maximum of the per-operand distances. -/
theorem flat_iterator_distance_cex :
    List.zipWith Cursor.sub itP.cursors itQ.cursors = [-1]
    ∧ itSub itP itQ = 0
    ∧ (0 : Int) ≠ -1 :=
  ⟨by decide, by decide, by decide⟩

/-- C5 amended: increment, decrement, and offset-by-n advance every
per-operand cursor by the same delta unconditionally (a placeholder cursor
ignores the request, a genuine cursor moves by exactly the delta);
dereference applies the functor to every cursor's current value; and the
distance between two flat iterators is the maximum of zero and the
per-operand pairwise cursor distances. -/
theorem flat_iterator_spec (it it2 : FIter) (m : Int) (i : Nat) :
    ((itAdd it m).cursors.getD i cdef = (it.cursors.getD i cdef).advance m)
    ∧ ((itInc it).cursors.getD i cdef = (it.cursors.getD i cdef).advance 1)
    ∧ ((itDec it).cursors.getD i cdef = (it.cursors.getD i cdef).advance (-1))
    ∧ (∀ v : Int, Cursor.advance (.dummy v) m = .dummy v)
    ∧ (∀ d : List Int, ∀ p : Int, Cursor.advance (.genuine d p) m = .genuine d (p + m))
    ∧ itDeref it = it.f (it.cursors.map Cursor.deref)
    ∧ 0 ≤ itSub it it2
    ∧ (∀ d ∈ List.zipWith Cursor.sub it.cursors it2.cursors, d ≤ itSub it it2)
    ∧ (itSub it it2 = 0 ∨ itSub it it2 ∈ List.zipWith Cursor.sub it.cursors it2.cursors) :=
  ⟨getD_map_advance it.cursors m i, getD_map_advance it.cursors 1 i,
    getD_map_advance it.cursors (-1) i, fun _ => rfl, fun _ _ => rfl, rfl,
    foldl_max_ge_init _ 0, foldl_max_ge_mem _ 0, foldl_max_cases _ 0⟩

/-- Witness for the amended C5 at two concrete iterators. -/
theorem flat_iterator_spec_witness :
    ((itAdd itP 3).cursors.getD 0 cdef = (itP.cursors.getD 0 cdef).advance 3)
    ∧ 0 ≤ itSub itP itQ
    ∧ (itSub itP itQ = 0 ∨ itSub itP itQ ∈ List.zipWith Cursor.sub itP.cursors itQ.cursors) :=
  ⟨(flat_iterator_spec itP itQ 3 0).1,
    (flat_iterator_spec itP itQ 3 0).2.2.2.2.2.2.1,
    (flat_iterator_spec itP itQ 3 0).2.2.2.2.2.2.2.2⟩

/-- C8: equality and ordering of two flat iterators compare only the
designated reference cursor, whose position is the first operand with a
non-placeholder cursor (every cursor before it is a placeholder, and at that
position the cursor is genuine whenever one exists); when every cursor is a
placeholder, the equality comparison is trivially satisfied. -/
theorem iterator_compare_spec (it1 it2 : FIter) :
    itEqual it1 it2
      = Cursor.ceq (it1.cursors.getD (refIndex it1.cursors) cdef)
          (it2.cursors.getD (refIndex it1.cursors) cdef)
    ∧ itLess it1 it2
      = Cursor.clt (it1.cursors.getD (refIndex it1.cursors) cdef)
          (it2.cursors.getD (refIndex it1.cursors) cdef)
    ∧ (∀ j : Nat, j < refIndex it1.cursors → (it1.cursors.getD j cdef).isDummy = true)
    ∧ ((∃ c ∈ it1.cursors, c.isDummy = false) →
        (it1.cursors.getD (refIndex it1.cursors) cdef).isDummy = false)
    ∧ ((∀ c ∈ it1.cursors, c.isDummy = true) → (∀ c ∈ it2.cursors, c.isDummy = true) →
        itEqual it1 it2 = true) := by
  refine ⟨rfl, rfl, ?_, ?_, ?_⟩
  · intro j hj
    by_cases hall : (it1.cursors.findIdx fun c => !c.isDummy) = it1.cursors.length
    · simp only [refIndex, hall, if_true] at hj
      exact absurd hj (Nat.not_lt_zero j)
    · simp only [refIndex, hall, if_false] at hj
      exact findIdx_prefix_dummy it1.cursors j hj
  · intro hex
    have hlt := findIdx_lt_of_found it1.cursors hex
    have hne : (it1.cursors.findIdx fun c => !c.isDummy) ≠ it1.cursors.length :=
      Nat.ne_of_lt hlt
    simp only [refIndex, hne, if_false]
    exact findIdx_found_dummy it1.cursors hex
  · intro h1 h2
    have hfi := findIdx_all_dummy it1.cursors h1
    have hidx : refIndex it1.cursors = 0 := by simp [refIndex, hfi]
    show Cursor.ceq (it1.cursors.getD (refIndex it1.cursors) cdef)
      (it2.cursors.getD (refIndex it1.cursors) cdef) = true
    rw [hidx]
    exact ceq_of_dummy _ _ (getD_dummy it1.cursors 0 h1) (getD_dummy it2.cursors 0 h2)

/-- Witness for C8: a degenerate all-placeholder node compares trivially
equal. -/
theorem iterator_compare_spec_witness :
    itEqual itR itR = true :=
  (iterator_compare_spec itR itR).2.2.2.2 (by decide) (by decide)

/-!
Helper lemma and claim theorems for C6 and C7.
-/

theorem hsi_all_iff (l : List SimdExpr) :
    hsi_all l = true ↔ ∀ e ∈ l, has_simd_interface e = true := by
  induction l with
  | nil => simp [hsi_all]
  | cons x xs ih => simp [hsi_all, ih]

/-- C6: a function node has the batch (simd) interface exactly when its
result type and every operand's value type admit a batch representation, the
functor exposes a batch apply, and every operand itself has the batch
interface, recursively; a failing condition just makes the predicate false,
it is never an error. -/
theorem simd_eligibility_spec (r fa : Bool) (args : List SimdExpr) :
    has_simd_interface (SimdExpr.node r fa args) = true
      ↔ (r = true ∧ (∀ e ∈ args, value_has_simd_type e = true)
          ∧ fa = true ∧ (∀ e ∈ args, has_simd_interface e = true)) := by
  simp [has_simd_interface, hsi_all_iff, List.all_eq_true, Bool.and_eq_true, and_assoc]

/-- Witness for C6 at a concrete eligible node over one eligible leaf. -/
theorem simd_eligibility_spec_witness :
    has_simd_interface (SimdExpr.node true true [SimdExpr.leaf true true]) = true
      ↔ (true = true ∧ (∀ e ∈ [SimdExpr.leaf true true], value_has_simd_type e = true)
          ∧ true = true ∧ (∀ e ∈ [SimdExpr.leaf true true], has_simd_interface e = true)) :=
  simd_eligibility_spec true true [SimdExpr.leaf true true]

/-- C7: the batch step applies the functor's batch apply to every operand's
batch result, and the per-operand batch type selection behaves as follows: a
bool result batch type forces the shared common batch type on every operand;
otherwise a bool or complex operand batch keeps its own representation, and
any other operand is loaded through the requested batch type. -/
theorem simd_type_selection_spec (n : SimdNode) (ST : BatchTy) :
    step_simd_impl n ST
      = n.simd_apply (n.ops.map fun op => op.stepSimd (get_simd_type op.simd_value_type ST n.common))
    ∧ (∀ a c : BatchTy, ST.isBool = true → get_simd_type a ST c = c)
    ∧ (∀ a c : BatchTy, ST.isBool = false → (a.isBool || a.isCplx) = true →
        get_simd_type a ST c = a)
    ∧ (∀ a c : BatchTy, ST.isBool = false → (a.isBool || a.isCplx) = false →
        get_simd_type a ST c = ST) := by
  refine ⟨rfl, fun a c h => ?_, fun a c h1 h2 => ?_, fun a c h1 h2 => ?_⟩
  · simp [get_simd_type, h]
  · simp [get_simd_type, h1, h2]
  · simp [get_simd_type, h1, h2]

/-- Witness for C7: a bool-batch operand keeps its own representation when
the result batch type is not bool. -/
theorem simd_type_selection_spec_witness :
    BatchTy.isBool ⟨false, false⟩ = false
    ∧ (BatchTy.isBool ⟨true, false⟩ || BatchTy.isCplx ⟨true, false⟩) = true
    ∧ get_simd_type ⟨true, false⟩ ⟨false, false⟩ ⟨false, true⟩ = ⟨true, false⟩ :=
  ⟨rfl, rfl,
    (simd_type_selection_spec nodeS ⟨false, false⟩).2.2.1 ⟨true, false⟩ ⟨false, true⟩ rfl rfl⟩

end xt
